import Mathlib

/-!
# Verification of `pydsql/typeParser.py`

A shallow embedding of the type-introspection module of PydSQL.
Python runtime values that the module inspects are modelled by inductive
types; the module's functions become total Lean functions over them.

Conventions of the embedding:
* A Python annotation value (`tp` in the source) is an `Ann`.
* The dict values the module returns are `DVal` trees; a Python dict is an
  insertion-ordered association list `List (String × DVal)` with
  last-write-wins assignment (`dinsertD`).
* Pydantic `FieldInfo` objects appear in two roles: as annotation metadata
  (only `discriminator`/`alias`/`description`/`json_schema_extra` are read
  there, modelled by `FieldInfoV`) and as `model_fields` values (only
  `annotation`/`default`/`default_factory`/`alias`/`is_required()` are read
  there, modelled by `FieldV`).
* Pydantic v2 marks an unset default with the `PydanticUndefined` sentinel,
  which is *not* `None`; `PyDefault` keeps the three cases
  (undefined / an actual value, where Python `None` is `Lit.pynone`) apart.
* `describe_annotation` of the source is named `describe_ann` here, and
  `is_type_annotation` is `is_type_ann` (Lean-side renaming only).
-/

/-- A Python literal/constant value, as used in `Literal[...]` arguments and
field defaults. -/
inductive Lit where
  | s (v : String)
  | i (v : Int)
  | b (v : Bool)
  | pynone
  deriving DecidableEq, Repr

/-- A pydantic `FieldInfo` in its role as `Annotated` metadata: the four
attributes `describe_models` reads from it (each may be unset = `None`). -/
structure FieldInfoV where
  discriminator : Option String
  aliasName : Option String
  description : Option String
  json_schema_extra : Option String
  deriving DecidableEq, Repr

/-- A Python type-annotation value (the `tp : Any` that the module walks).

* `literal vs` — `Literal[v1, ...]` (origin `Literal`, args `vs`);
* `union args` — `Union[...]`/`X | Y` (origin `Union`, args `args`);
* `annotated base md` — `Annotated[base, m1, ...]` (origin `Annotated`);
* `modelCls n` — a `BaseModel` subclass named `n`;
* `noneType` — the class `type(None)` (`NoneType`), a plain type;
* `basic n` — any other concrete type object (e.g. `str`, `int`) named `n`;
* `fieldInfo fi` — a pydantic `FieldInfo` instance (not a type);
* `duck d a de` — a non-`FieldInfo` object that nevertheless exposes
  `discriminator`/`alias`/`description` attributes (duck-typed metadata);
* `otherObj r` — any other object, with `str(...)` rendering `r`. -/
inductive Ann where
  | literal (values : List Lit)
  | union (args : List Ann)
  | annotated (base : Ann) (metadata : List Ann)
  | modelCls (name : String)
  | noneType
  | basic (name : String)
  | fieldInfo (fi : FieldInfoV)
  | duck (discriminator : Option String) (aliasName : Option String)
      (description : Option String)
  | otherObj (r : String)
  deriving Repr

/-- The values stored in the dicts the module returns: strings, booleans,
literal constants, Python `None`, the `PydanticUndefined` sentinel, lists,
and nested dicts (ordered association lists). -/
inductive DVal where
  | str (s : String)
  | bool (b : Bool)
  | lit (l : Lit)
  | null
  | undef
  | list (xs : List DVal)
  | dict (es : List (String × DVal))
  deriving Repr

/-- Python `d[k]` lookup on an ordered dict (keys are unique in Python, so
first match is the match). -/
def lookupD (k : String) : List (String × DVal) → Option DVal
  | [] => none
  | (k2, v) :: rest => if k2 = k then some v else lookupD k rest

/-- Python `d[k] = v` assignment on an ordered dict: replace in place when
the key exists, else append (Python dicts keep the original position of an
updated key). -/
def dinsertD (k : String) (v : DVal) : List (String × DVal) →
    List (String × DVal)
  | [] => [(k, v)]
  | (k2, v2) :: rest =>
      if k2 = k then (k2, v) :: rest else (k2, v2) :: dinsertD k v rest

/-- `Option String` to the Python value stored in a dict (`None` ↦ null). -/
def optStr : Option String → DVal
  | some s => .str s
  | none => .null

/-- `NoneType in args` (line 104 of the source): membership of the
`NoneType` class among the union's argument objects. -/
def hasNoneType : List Ann → Bool
  | [] => false
  | .noneType :: _ => true
  | _ :: rest => hasNoneType rest

/-- `str(tp)` for the objects that can reach the `unknown` fallback branch
(the exact rendering is irrelevant to the module's logic; it is only stored
under the `repr` key). -/
def strOfAnn : Ann → String
  | .literal _ => "Literal"
  | .union _ => "Union"
  | .annotated _ _ => "Annotated"
  | .modelCls n => n
  | .noneType => "NoneType"
  | .basic n => n
  | .fieldInfo _ => "FieldInfo"
  | .duck _ _ _ => "DuckMeta"
  | .otherObj r => r

/-- `is_type_annotation` (source lines 38-49): `get_origin(obj)` is one of
`Annotated`/`Literal`/`Union`.  In the embedding only the three origin
constructs have a non-`None` origin of that kind. -/
def is_type_ann : Ann → Bool
  | .literal _ => true
  | .union _ => true
  | .annotated _ _ => true
  | _ => false

/-- `describe_annotation` (source lines 83-140): ordered checks on
`get_origin`, then `isinstance(tp, type)` with the `BaseModel` subclass
case first, then the `unknown` fallback. -/
def describe_ann : Ann → DVal
  | .literal values =>
      .dict [("kind", .str "literal"),
             ("values", .list (values.map DVal.lit)),
             ("optional", .bool false)]
  | .union args =>
      .dict [("kind", .str "union"),
             ("options", .list (args.attach.map fun x => describe_ann x.1)),
             ("optional", .bool (hasNoneType args))]
  | .annotated base metadata =>
      .dict [("kind", .str "annotated"),
             ("base", describe_ann base),
             ("metadata",
              .list (metadata.attach.map fun x => describe_ann x.1)),
             ("optional", .bool false)]
  | .modelCls n =>
      .dict [("kind", .str "model_ref"),
             ("name", .str n),
             ("optional", .bool false)]
  | .noneType =>
      .dict [("kind", .str "type"),
             ("name", .str "NoneType"),
             ("optional", .bool false)]
  | .basic n =>
      .dict [("kind", .str "type"),
             ("name", .str n),
             ("optional", .bool false)]
  | .fieldInfo fi =>
      .dict [("kind", .str "unknown"),
             ("repr", .str (strOfAnn (.fieldInfo fi))),
             ("optional", .bool false)]
  | .duck d a de =>
      .dict [("kind", .str "unknown"),
             ("repr", .str (strOfAnn (.duck d a de))),
             ("optional", .bool false)]
  | .otherObj r =>
      .dict [("kind", .str "unknown"),
             ("repr", .str (strOfAnn (.otherObj r))),
             ("optional", .bool false)]
  termination_by a => sizeOf a
  decreasing_by
  all_goals simp_wf
  all_goals try omega
  all_goals (have h := List.sizeOf_lt_of_mem x.2; omega)

/-- The annotation shapes `describe_annotation` recognizes explicitly; all
others fall to the `unknown` arm. -/
def recognized : Ann → Bool
  | .literal _ => true
  | .union _ => true
  | .annotated _ _ => true
  | .modelCls _ => true
  | .noneType => true
  | .basic _ => true
  | _ => false

/-- Whether a value is a Python dict. -/
def DVal.isDict : DVal → Bool
  | .dict _ => true
  | _ => false

/-- The entries of a dict value (`[]` for non-dicts). -/
def dentries : DVal → List (String × DVal)
  | .dict es => es
  | _ => []

/-- The seven `kind` variants of the Type Descriptor contract. -/
def isKindStr (s : String) : Bool :=
  s = "literal" || s = "union" || s = "annotated" || s = "model_ref" ||
  s = "type_ref" || s = "type" || s = "unknown"

/-- One dict node satisfies the descriptor contract: its `kind` entry is one
of the seven variants and its `optional` entry is a boolean. -/
def kindOptOK (es : List (String × DVal)) : Bool :=
  (match lookupD "kind" es with
   | some (.str s) => isKindStr s
   | _ => false) &&
  (match lookupD "optional" es with
   | some (.bool _) => true
   | _ => false)

mutual
/-- Every dict node anywhere inside the value satisfies the descriptor
contract (`kindOptOK`). -/
def descOK : DVal → Bool
  | .dict es => kindOptOK es && descOKentries es
  | .list xs => descOKlist xs
  | _ => true

/-- `descOK` over all values of a dict's entries. -/
def descOKentries : List (String × DVal) → Bool
  | [] => true
  | (_, v) :: rest => descOK v && descOKentries rest

/-- `descOK` over all elements of a list. -/
def descOKlist : List DVal → Bool
  | [] => true
  | v :: rest => descOK v && descOKlist rest
end

/-- The scan of `Annotated` metadata arguments for a pydantic `FieldInfo`
instance (source lines 159-169): the first `isinstance(meta, FieldInfo)`
match wins; a `duck` object that merely exposes the attributes is *not* an
instance and is skipped. -/
def findFieldInfo : List Ann → Option FieldInfoV
  | [] => none
  | .fieldInfo fi :: _ => some fi
  | _ :: rest => findFieldInfo rest

/-- The `FieldInfo` (if any) that `describe_models` extracts metadata from:
only an `Annotated` annotation is scanned. -/
def dmFieldInfo : Ann → Option FieldInfoV
  | .annotated _ metadata => findFieldInfo metadata
  | _ => none

/-- The `discriminator` value `describe_models` attaches
(`getattr(meta, "discriminator", None)`, else `None`). -/
def dmDisc (tp : Ann) : DVal :=
  match dmFieldInfo tp with
  | some fi => optStr fi.discriminator
  | none => .null

/-- The `field_meta` dict `describe_models` attaches: for a found
`FieldInfo`, its `alias`/`description`/`json_schema_extra` attributes read
via `getattr(..., None)`; otherwise the empty dict. -/
def dmFieldMeta (tp : Ann) : DVal :=
  match dmFieldInfo tp with
  | some fi =>
      .dict [("alias", optStr fi.aliasName),
             ("description", optStr fi.description),
             ("json_schema_extra", optStr fi.json_schema_extra)]
  | none => .dict []

/-- `str(...)` of a dict value, for the dead fallback branch of
`describe_models` (source lines 182-188). -/
def strOfDVal (v : DVal) : String := toString (repr v)

/-- `describe_models` (source lines 142-188): extract FieldInfo metadata
from an `Annotated` shape, compute the base description via
`describe_annotation`, then attach `discriminator` and `field_meta` by
dict assignment; a non-dict base description would fall back to a fresh
`unknown` dict. -/
def describe_models (tp : Ann) : DVal :=
  match describe_ann tp with
  | .dict es =>
      .dict (dinsertD "field_meta" (dmFieldMeta tp)
               (dinsertD "discriminator" (dmDisc tp) es))
  | other =>
      .dict [("kind", .str "unknown"),
             ("repr", .str (strOfDVal other)),
             ("optional", .bool false),
             ("discriminator", dmDisc tp),
             ("field_meta", dmFieldMeta tp)]

/-- The Enricher's metadata scan as the SPEC words it (§4.2: the first item
that "behaves as a field-descriptor object (exposes
discriminator/alias/description attributes)", i.e. a capability check):
under that reading both a genuine `FieldInfo` instance and a duck-typed
object exposing the attributes match.  Defined only for comparison with the
source's `isinstance(meta, FieldInfo)` scan. -/
def specFindFieldDescLike : List Ann → Option FieldInfoV
  | [] => none
  | .fieldInfo fi :: _ => some fi
  | .duck d a de :: _ => some ⟨d, a, de, none⟩
  | _ :: rest => specFindFieldDescLike rest

/-- The discriminator the spec's capability-check Enricher would extract. -/
def specDmDisc (tp : Ann) : DVal :=
  match (match tp with
         | .annotated _ metadata => specFindFieldDescLike metadata
         | _ => none : Option FieldInfoV) with
  | some fi => optStr fi.discriminator
  | none => .null

/-- An `Annotated` annotation whose only metadata item is a duck-typed
(non-`FieldInfo`) object exposing a `discriminator` attribute. -/
def duckOnlyAnnotated : Ann :=
  .annotated (.basic "int") [.duck (some "kind") none none]

/-- Generic first-match lookup in a Python dict of non-`DVal` values. -/
def alookup {α : Type} (k : String) : List (String × α) → Option α
  | [] => none
  | (k2, v) :: rest => if k2 = k then some v else alookup k rest

/-- Generic Python dict assignment (replace in place or append). -/
def ainsert {α : Type} (k : String) (v : α) : List (String × α) →
    List (String × α)
  | [] => [(k, v)]
  | (k2, v2) :: rest =>
      if k2 = k then (k2, v) :: rest else (k2, v2) :: ainsert k v rest

/-- A pydantic v2 field default slot: `PydanticUndefined` when no default
was declared, else the declared value (Python `None` is `Lit.pynone`). -/
inductive PyDefault where
  | undef
  | val (l : Lit)
  deriving DecidableEq, Repr

/-- `field.default is not None` (source line 231): the sentinel
`PydanticUndefined` is *not* `None`, so only an explicit `None` default
makes this false. -/
def PyDefault.isNotNone : PyDefault → Bool
  | .undef => true
  | .val .pynone => false
  | .val _ => true

/-- The Python value stored under the `default` key. -/
def PyDefault.toDVal : PyDefault → DVal
  | .undef => .undef
  | .val l => .lit l

/-- A `model.model_fields` entry: the attributes `iter_model_fields` reads
from the pydantic `FieldInfo` stored there. -/
structure FieldV where
  /-- `field.annotation`: the annotation pydantic resolved for the field
  (the fallback when the name is missing from the hints, line 215). -/
  ann : Ann
  /-- `field.default`. -/
  default : PyDefault
  /-- whether `field.default_factory` is not `None`. -/
  default_factory : Bool
  /-- `field.alias`. -/
  aliasName : Option String
  deriving Repr

/-- `FieldInfo.is_required()` in pydantic v2: true iff the default is
`PydanticUndefined` and there is no default factory. -/
def FieldV.is_required (f : FieldV) : Bool :=
  (match f.default with | .undef => true | _ => false) && !f.default_factory

/-- One entry of a class's `__annotations__`/MRO annotations: either a
forward-reference string (under `from __future__ import annotations` every
annotation is its source text, so a field declared with a bare alias name
carries that name as a string) or an actual annotation object. -/
inductive RawAnn where
  | str (s : String)
  | ann (a : Ann)
  deriving Repr

/-- A pydantic model class, with exactly the attributes the module reads. -/
structure Model where
  /-- the class name. -/
  name : String
  /-- `model.__annotations__`: the raw annotation mapping Python attribute
  lookup yields on the class (source line 209). -/
  raw_anns : List (String × RawAnn)
  /-- the raw annotations `get_type_hints` resolves: all classes of the
  MRO, base classes first so derived entries overwrite base ones. -/
  mro_anns : List (String × RawAnn)
  /-- the namespace `get_type_hints` evaluates forward references in
  (the globals of the model's defining module). -/
  globalns : List (String × Ann)
  /-- `model.model_fields`, in declared order. -/
  model_fields : List (String × FieldV)
  deriving Repr

/-- Evaluation of one raw annotation by `get_type_hints`: a string is a
forward reference looked up in the namespace — an unbound name raises
`NameError("name X is not defined")` — and a non-string annotation passes
through. -/
def resolveRaw (globalns : List (String × Ann)) : RawAnn → Except String Ann
  | .str s =>
      match alookup s globalns with
      | some a => .ok a
      | none => .error ("name " ++ s ++ " is not defined")
  | .ann a => .ok a

/-- `get_type_hints(model, include_extras=True)` (source line 206): resolve
every annotation across the MRO into one dict; the first unresolvable
forward reference aborts the whole call with its `NameError`. -/
def get_type_hints (m : Model) : Except String (List (String × Ann)) :=
  m.mro_anns.foldlM (fun acc p => do
    let a ← resolveRaw m.globalns p.2
    pure (ainsert p.1 a acc)) []

/-- The `type_ref` annotation descriptor emitted by the alias
short-circuit (source lines 222-228). -/
def typeRefAnnDict (s : String) : DVal :=
  .dict [("kind", .str "type_ref"),
         ("name", .str s),
         ("optional", .bool false),
         ("discriminator", .null),
         ("field_meta", .dict [])]

/-- The field descriptor common to both branches of the loop body
(source lines 229-235 and 241-247), given the annotation descriptor. -/
def fieldEntryWith (annDesc : DVal) (field : FieldV) : DVal :=
  .dict [("annotation", annDesc),
         ("required", .bool field.is_required),
         ("has_default",
          .bool (field.default.isNotNone || field.default_factory)),
         ("default", field.default.toDVal),
         ("alias", optStr field.aliasName)]

/-- The loop body of `iter_model_fields` for one field (source lines
214-248): resolve `ann` from the hints with `field.annotation` fallback,
short-circuit when the raw annotation is a string naming a known alias,
else describe via `describe_models`. -/
def iter_field_entry (hints : List (String × Ann))
    (type_aliases : List (String × DVal))
    (raw_anns : List (String × RawAnn))
    (name : String) (field : FieldV) : DVal :=
  match alookup name raw_anns with
  | some (.str s) =>
      if (alookup s type_aliases).isSome then
        fieldEntryWith (typeRefAnnDict s) field
      else
        fieldEntryWith (describe_models ((alookup name hints).getD field.ann))
          field
  | _ =>
      fieldEntryWith (describe_models ((alookup name hints).getD field.ann))
        field

/-- `iter_model_fields` (source lines 191-249): `get_type_hints` first — a
resolution failure propagates and no mapping is produced — then one output
entry per `model_fields` entry. -/
def iter_model_fields (m : Model) (type_aliases : List (String × DVal)) :
    Except String (List (String × DVal)) := do
  let hints ← get_type_hints m
  pure (m.model_fields.foldl
    (fun out p =>
      ainsert p.1 (iter_field_entry hints type_aliases m.raw_anns p.1 p.2)
        out)
    [])

/-- The concrete model of the C2 witness: one field `dept` whose raw
annotation is the bare alias name string `DeptAlias`. -/
def wC2Model : Model :=
  { name := "Shop",
    raw_anns := [("dept", .str "DeptAlias")],
    mro_anns := [("dept", .str "DeptAlias")],
    globalns := [("DeptAlias", .literal [.s "clothing", .s "grocery"])],
    model_fields :=
      [("dept", { ann := .literal [.s "clothing", .s "grocery"],
                  default := .undef,
                  default_factory := false,
                  aliasName := none })] }

/-- The alias mapping of the C2 witness. -/
def wC2Aliases : List (String × DVal) :=
  [("DeptAlias", describe_ann (.literal [.s "clothing", .s "grocery"]))]

/-- The concrete model of the C10 witness: `dept` is in `model_fields` and
in the MRO annotations (spelled as the alias name `DeptAlias` where it was
declared) but not in the class's own `__annotations__`. -/
def wC10Model : Model :=
  { name := "ShopChild",
    raw_anns := [],
    mro_anns := [("dept", .str "DeptAlias")],
    globalns := [("DeptAlias", .literal [.s "clothing", .s "grocery"])],
    model_fields :=
      [("dept", { ann := .basic "object",
                  default := .undef,
                  default_factory := false,
                  aliasName := none })] }

/-- Whether the first character list is a prefix of the second. -/
def charLead : List Char → List Char → Bool
  | [], _ => true
  | _ :: _, [] => false
  | a :: as, b :: bs => (a = b) && charLead as bs

/-- Whether the first character list occurs contiguously in the second. -/
def charInfix (needle : List Char) : List Char → Bool
  | [] => charLead needle []
  | c :: rest => charLead needle (c :: rest) || charInfix needle rest

/-- A substring check on strings (used only to state what an error message
does and does not report). -/
def strContains (hay needle : String) : Bool :=
  charInfix needle.toList hay.toList

/-- The concrete model of the C9 counterexample: class `MyModel`, field
`zzz` annotated with the unbound forward reference `UndefAlias`. -/
def unresolvedModel : Model :=
  { name := "MyModel",
    raw_anns := [("zzz", .str "UndefAlias")],
    mro_anns := [("zzz", .str "UndefAlias")],
    globalns := [],
    model_fields :=
      [("zzz", { ann := .basic "int", default := .undef,
                 default_factory := false, aliasName := none })] }

/-- The model exercising `has_default` at the two problem points:
`product_id` declares no default at all (pydantic v2 stores the
`PydanticUndefined` sentinel there), and `aisle` declares the literal
default `None`. -/
def wC6Model : Model :=
  { name := "Product",
    raw_anns := [("product_id", .ann (.basic "int")),
                 ("aisle", .ann (.union [.basic "str", .noneType]))],
    mro_anns := [("product_id", .ann (.basic "int")),
                 ("aisle", .ann (.union [.basic "str", .noneType]))],
    globalns := [],
    model_fields :=
      [("product_id", { ann := .basic "int", default := .undef,
                        default_factory := false, aliasName := none }),
       ("aisle", { ann := .union [.basic "str", .noneType],
                   default := .val .pynone,
                   default_factory := false, aliasName := none })] }

/-- A Boolean lexicographic comparison on character lists
(code-point order, as Python compares identifier strings). -/
def charListLe : List Char → List Char → Bool
  | [], _ => true
  | _ :: _, [] => false
  | a :: as, b :: bs =>
      if a < b then true else if a = b then charListLe as bs else false

/-- `a <= b` on strings, by code points. -/
def strLeb (a b : String) : Bool := charListLe a.toList b.toList

/-- Ordered insertion for `sortStrs`. -/
def insortStr (s : String) : List String → List String
  | [] => [s]
  | t :: rest => if strLeb s t then s :: t :: rest else t :: insortStr s rest

/-- Insertion sort on strings: models the sorted order of `dir(module)`. -/
def sortStrs : List String → List String
  | [] => []
  | s :: rest => insortStr s (sortStrs rest)

/-- A module binding is either a `BaseModel` subclass (a class with
introspectable fields) or any other object — in particular a
type-annotation value.  (`BaseModel` itself is assumed not bound in the
module, matching the `attr is not BaseModel` exclusion.) -/
inductive PyBinding where
  | obj (a : Ann)
  | model (m : Model)
  deriving Repr

/-- A Python module: `__dict__` in insertion order (keys unique). -/
structure PyModule where
  dict : List (String × PyBinding)
  deriving Repr

/-- `getattr(module, name)`. -/
def moduleAttr (mod : PyModule) (n : String) : Option PyBinding :=
  alookup n mod.dict

/-- `dir(module)`: the binding names in sorted order. -/
def dirNames (mod : PyModule) : List String :=
  sortStrs (mod.dict.map Prod.fst)

/-- `isinstance(attr, type) and issubclass(attr, BaseModel) and attr is
not BaseModel` (source lines 62-66). -/
def asBaseModelSubclass : Option PyBinding → Option Model
  | some (.model m) => some m
  | _ => none

/-- The loop body shared by name-driven collection folds: insert the
value `g n` under `n` when present. -/
def optInsertStep {α : Type} (g : String → Option α)
    (out : List (String × α)) (n : String) : List (String × α) :=
  match g n with
  | some v => ainsert n v out
  | none => out

/-- `collect_base_models` (source lines 52-68): iterate `dir(module)`,
keep the `BaseModel` subclasses. -/
def collect_base_models (mod : PyModule) : List (String × Model) :=
  (dirNames mod).foldl
    (optInsertStep fun n => asBaseModelSubclass (moduleAttr mod n)) []

/-- `name.startswith("_")` with the single-character prefix `_`: the
first character is an underscore.  (Written via `toList` because the
embedding needs it to evaluate.) -/
def startsWithUnderscore (n : String) : Bool :=
  match n.toList with
  | [] => false
  | c :: _ => c = '_'

/-- `find_defined_type_aliases` (source lines 70-81): iterate
`module.__dict__`, skip names starting with `_`, keep values passing
`is_type_annotation`, and store `describe_annotation(obj)` (NB: the
Describer, not `describe_models`). -/
def find_defined_type_aliases (mod : PyModule) : List (String × DVal) :=
  mod.dict.foldl (fun out p =>
    if startsWithUnderscore p.1 then out
    else match p.2 with
      | .obj a => if is_type_ann a then dinsertD p.1 (describe_ann a) out
                  else out
      | .model _ => out) []

/-- `retrieve_types_and_basemodels` (source lines 252-273): build the
alias registry first (entry by entry), then run `iter_model_fields` for
every collected model with that alias set, inserting under the model
name. -/
def retrieve_types_and_basemodels (mod : PyModule) :
    Except String (List (String × DVal)) := do
  let type_aliases := find_defined_type_aliases mod
  let out0 := type_aliases.foldl (fun out p => dinsertD p.1 p.2 out) []
  let models := collect_base_models mod
  models.foldlM (fun out p => do
    let fields ← iter_model_fields p.2 type_aliases
    pure (dinsertD p.1 (.dict fields) out)) out0

/-- The per-binding decision of alias discovery as a partial map: keep a
public binding whose value passes the origin check, with its
`describe_annotation` descriptor. -/
def aliasKeep : String × PyBinding → Option (String × DVal)
  | (n, .obj a) =>
      if !startsWithUnderscore n && is_type_ann a then some (n, describe_ann a)
      else none
  | (_, .model _) => none

/-- The concrete module of the C7 witness: one alias binding and one model
binding. -/
def wC7Module : PyModule :=
  ⟨[("DeptAlias", .obj (.literal [.s "clothing", .s "grocery"])),
    ("Shop", .model wC2Model)]⟩

/-- The concrete module of the C8 counterexample: a single public alias
binding `A`. -/
def wC8Module : PyModule := ⟨[("A", .obj (.literal [.s "x"]))]⟩

@[simp] theorem describe_ann_literal (values : List Lit) :
    describe_ann (.literal values) =
      .dict [("kind", .str "literal"),
             ("values", .list (values.map DVal.lit)),
             ("optional", .bool false)] := by
  simp only [describe_ann]

@[simp] theorem describe_ann_union (args : List Ann) :
    describe_ann (.union args) =
      .dict [("kind", .str "union"),
             ("options", .list (args.map describe_ann)),
             ("optional", .bool (hasNoneType args))] := by
  simp only [describe_ann, List.attach_map_coe]

@[simp] theorem describe_ann_annotated (base : Ann) (metadata : List Ann) :
    describe_ann (.annotated base metadata) =
      .dict [("kind", .str "annotated"),
             ("base", describe_ann base),
             ("metadata", .list (metadata.map describe_ann)),
             ("optional", .bool false)] := by
  simp only [describe_ann, List.attach_map_coe]

@[simp] theorem dentries_dict (es : List (String × DVal)) :
    dentries (.dict es) = es := rfl

@[simp] theorem descOK_str (s : String) : descOK (.str s) = true := by
  simp [descOK]

@[simp] theorem descOK_bool (b : Bool) : descOK (.bool b) = true := by
  simp [descOK]

@[simp] theorem descOK_lit (l : Lit) : descOK (.lit l) = true := by
  simp [descOK]

@[simp] theorem descOK_null : descOK .null = true := by simp [descOK]

@[simp] theorem descOK_undef : descOK .undef = true := by simp [descOK]

theorem descOKlist_eq (xs : List DVal) : descOKlist xs = xs.all descOK := by
  induction xs with
  | nil => simp [descOKlist]
  | cons v rest ih => simp [descOKlist, ih]

theorem descOKentries_eq (es : List (String × DVal)) :
    descOKentries es = es.all fun p => descOK p.2 := by
  induction es with
  | nil => simp [descOKentries]
  | cons p rest ih => simp [descOKentries, ih]

@[simp] theorem descOK_list (xs : List DVal) :
    descOK (.list xs) = xs.all descOK := by
  simp [descOK, descOKlist_eq]

@[simp] theorem descOK_dict (es : List (String × DVal)) :
    descOK (.dict es) = (kindOptOK es && es.all fun p => descOK p.2) := by
  simp [descOK, descOKentries_eq]

theorem descOK_describe_ann (a : Ann) : descOK (describe_ann a) = true := by
  induction a using describe_ann.induct with
  | case1 values =>
      simp [kindOptOK, lookupD, isKindStr, List.all_map, Function.comp]
  | case2 args ih =>
      simp [kindOptOK, lookupD, isKindStr, List.all_map, Function.comp,
            List.all_eq_true]
      intro x hx
      exact ih ⟨x, hx⟩
  | case3 base metadata ihb ihm =>
      simp [kindOptOK, lookupD, isKindStr, List.all_map, Function.comp,
            List.all_eq_true]
      refine ⟨ihb, ?_⟩
      intro x hx
      exact ihm ⟨x, hx⟩
  | case4 n => simp [describe_ann, kindOptOK, lookupD, isKindStr]
  | case5 => simp [describe_ann, kindOptOK, lookupD, isKindStr]
  | case6 n => simp [describe_ann, kindOptOK, lookupD, isKindStr]
  | case7 fi => simp [describe_ann, kindOptOK, lookupD, isKindStr]
  | case8 d al de => simp [describe_ann, kindOptOK, lookupD, isKindStr]
  | case9 r => simp [describe_ann, kindOptOK, lookupD, isKindStr]

theorem describe_ann_isDict (a : Ann) : (describe_ann a).isDict = true := by
  cases a <;> simp [describe_ann, DVal.isDict]

/-- C1: for every input annotation value, `describe_annotation` returns
exactly one dict whose `kind` is one of the seven variants
literal/union/annotated/model_ref/type_ref/type/unknown and whose
`optional` entry is present and boolean, at every nesting level of the
returned tree; it is a total function (never raises), and an unrecognized
shape degrades to `unknown` with a textual rendering. -/
theorem c1_describer_uniform_kind (a : Ann) :
    (describe_ann a).isDict = true ∧ descOK (describe_ann a) = true ∧
    (recognized a = false →
      lookupD "kind" (dentries (describe_ann a)) = some (.str "unknown") ∧
      lookupD "repr" (dentries (describe_ann a)) =
        some (.str (strOfAnn a))) := by
  refine ⟨describe_ann_isDict a, descOK_describe_ann a, ?_⟩
  intro h
  cases a <;> simp_all [describe_ann, recognized, dentries, lookupD]

/-- Witness for C1 at a concrete unrecognized input. -/
theorem c1_describer_uniform_kind_witness :
    recognized (Ann.otherObj "Ellipsis") = false ∧
    lookupD "kind" (dentries (describe_ann (Ann.otherObj "Ellipsis"))) =
      some (.str "unknown") :=
  ⟨rfl, ((c1_describer_uniform_kind (Ann.otherObj "Ellipsis")).2.2 rfl).1⟩

theorem hasNoneType_iff (args : List Ann) :
    hasNoneType args = true ↔ Ann.noneType ∈ args := by
  induction args with
  | nil => simp [hasNoneType]
  | cons a rest ih =>
      cases a <;> simp [hasNoneType, ih]

/-- C3: for every union annotation (any arity, including the degenerate
ones), `describe_annotation` returns a `union` descriptor whose `options`
are the describer mapped over the members in declaration order (one entry
per member, the absence type included) and whose `optional` is true iff
`NoneType` is among the members. -/
theorem c3_union_options_and_optional (args : List Ann) :
    describe_ann (.union args) =
      .dict [("kind", .str "union"),
             ("options", .list (args.map describe_ann)),
             ("optional", .bool (hasNoneType args))] ∧
    (args.map describe_ann).length = args.length ∧
    (hasNoneType args = true ↔ Ann.noneType ∈ args) := by
  exact ⟨describe_ann_union args, by simp, hasNoneType_iff args⟩

theorem lookupD_dinsertD_self (k : String) (v : DVal)
    (es : List (String × DVal)) : lookupD k (dinsertD k v es) = some v := by
  induction es with
  | nil => simp [dinsertD, lookupD]
  | cons p rest ih =>
      obtain ⟨k2, v2⟩ := p
      by_cases h : k2 = k <;> simp [dinsertD, lookupD, h, ih]

theorem lookupD_dinsertD_ne (k k2 : String) (v : DVal)
    (es : List (String × DVal)) (h : k ≠ k2) :
    lookupD k (dinsertD k2 v es) = lookupD k es := by
  induction es with
  | nil => simp [dinsertD, lookupD, Ne.symm h]
  | cons p rest ih =>
      obtain ⟨k3, v3⟩ := p
      by_cases h3 : k3 = k2
      · subst h3
        simp [dinsertD, lookupD, Ne.symm h]
      · by_cases h4 : k3 = k <;> simp [dinsertD, lookupD, h3, h4, h, ih]

theorem dinsertD_of_not_mem (k : String) (v : DVal)
    (es : List (String × DVal)) (h : k ∉ es.map Prod.fst) :
    dinsertD k v es = es ++ [(k, v)] := by
  induction es with
  | nil => simp [dinsertD]
  | cons p rest ih =>
      obtain ⟨k2, v2⟩ := p
      simp only [List.map_cons, List.mem_cons] at h
      push_neg at h
      simp [dinsertD, Ne.symm h.1, ih h.2]

theorem lookupD_append_right (k : String) (es tail : List (String × DVal))
    (h : k ∉ es.map Prod.fst) :
    lookupD k (es ++ tail) = lookupD k tail := by
  induction es with
  | nil => simp
  | cons p rest ih =>
      obtain ⟨k2, v2⟩ := p
      simp only [List.map_cons, List.mem_cons] at h
      push_neg at h
      simp [lookupD, Ne.symm h.1, ih h.2]

/-- The top-level keys of `describe_annotation`'s result never include the
two enrichment keys. -/
theorem describe_ann_no_enrich_keys (a : Ann) :
    "discriminator" ∉ (dentries (describe_ann a)).map Prod.fst ∧
    "field_meta" ∉ (dentries (describe_ann a)).map Prod.fst := by
  cases a <;> simp [describe_ann, dentries]

theorem describe_models_eq_append (tp : Ann) :
    describe_models tp =
      .dict (dentries (describe_ann tp) ++
             [("discriminator", dmDisc tp),
              ("field_meta", dmFieldMeta tp)]) := by
  obtain ⟨hd, hf⟩ := describe_ann_no_enrich_keys tp
  have hdict : ∃ es, describe_ann tp = .dict es := by
    have := describe_ann_isDict tp
    cases h : describe_ann tp <;> simp [DVal.isDict, h] at this ⊢
  obtain ⟨es, hes⟩ := hdict
  rw [hes] at hd hf
  simp only [dentries] at hd hf
  simp only [describe_models, hes, dentries]
  rw [dinsertD_of_not_mem _ _ _ hd]
  rw [dinsertD_of_not_mem _ _ _ (by simp [hf])]
  simp

theorem describe_models_lookup_disc (tp : Ann) :
    lookupD "discriminator" (dentries (describe_models tp)) =
      some (dmDisc tp) := by
  rw [describe_models_eq_append tp, dentries_dict]
  rw [lookupD_append_right _ _ _ (describe_ann_no_enrich_keys tp).1]
  simp [lookupD]

theorem describe_models_lookup_fm (tp : Ann) :
    lookupD "field_meta" (dentries (describe_models tp)) =
      some (dmFieldMeta tp) := by
  rw [describe_models_eq_append tp, dentries_dict]
  rw [lookupD_append_right _ _ _ (describe_ann_no_enrich_keys tp).2]
  simp [lookupD]

/-- C4: for every annotation, `describe_models` returns exactly the dict
`describe_annotation` returns for the same annotation with the two keys
`discriminator` and `field_meta` appended, and both keys are present on
the result unconditionally. -/
theorem c4_enricher_is_describer_plus_keys (tp : Ann) :
    describe_models tp =
      .dict (dentries (describe_ann tp) ++
             [("discriminator", dmDisc tp), ("field_meta", dmFieldMeta tp)]) ∧
    lookupD "discriminator" (dentries (describe_models tp)) =
      some (dmDisc tp) ∧
    lookupD "field_meta" (dentries (describe_models tp)) =
      some (dmFieldMeta tp) :=
  ⟨describe_models_eq_append tp, describe_models_lookup_disc tp,
   describe_models_lookup_fm tp⟩

/-- C5 counterexample: on a duck-typed metadata object that exposes the
discriminator/alias/description attributes but is not a `FieldInfo`
instance, the code extracts nothing (`discriminator` stays null), while
the claimed capability check would extract `"kind"`; so extraction is by
concrete type, not by capability. -/
theorem c5_counterexample_isinstance_not_capability :
    lookupD "discriminator" (dentries (describe_models duckOnlyAnnotated)) =
      some DVal.null ∧
    specDmDisc duckOnlyAnnotated = DVal.str "kind" ∧
    lookupD "discriminator" (dentries (describe_models duckOnlyAnnotated)) ≠
      some (specDmDisc duckOnlyAnnotated) := by
  refine ⟨?_, rfl, ?_⟩
  · rw [describe_models_lookup_disc]
    rfl
  · rw [describe_models_lookup_disc]
    simp [dmDisc, dmFieldInfo, duckOnlyAnnotated, findFieldInfo,
          specDmDisc, specFindFieldDescLike, optStr]

theorem findFieldInfo_append (pre post : List Ann) (fi : FieldInfoV)
    (h : findFieldInfo pre = none) :
    findFieldInfo (pre ++ .fieldInfo fi :: post) = some fi := by
  induction pre with
  | nil => simp [findFieldInfo]
  | cons a rest ih =>
      cases a <;> simp [findFieldInfo] at h ⊢ <;> exact ih h

/-- C5 (amended): the Enricher extracts discriminator/alias/description
from the first trailing metadata item that is an instance of the concrete
pydantic `FieldInfo` type (an `isinstance` check, not a capability check),
scanning in declaration order and stopping at the first such instance; an
attribute unset on that instance yields a null value and is never fatal. -/
theorem c5_first_fieldinfo_instance_wins (base : Ann) (pre post : List Ann)
    (fi : FieldInfoV) (h : findFieldInfo pre = none) :
    lookupD "discriminator"
      (dentries (describe_models
        (.annotated base (pre ++ .fieldInfo fi :: post)))) =
      some (optStr fi.discriminator) ∧
    lookupD "field_meta"
      (dentries (describe_models
        (.annotated base (pre ++ .fieldInfo fi :: post)))) =
      some (.dict [("alias", optStr fi.aliasName),
                   ("description", optStr fi.description),
                   ("json_schema_extra", optStr fi.json_schema_extra)]) := by
  have hfi : dmFieldInfo (.annotated base (pre ++ .fieldInfo fi :: post)) =
      some fi := by
    simp only [dmFieldInfo]
    exact findFieldInfo_append _ _ _ h
  constructor
  · rw [describe_models_lookup_disc]
    simp [dmDisc, hfi]
  · rw [describe_models_lookup_fm]
    simp [dmFieldMeta, hfi]

/-- Witness for C5 (amended) at a concrete input: a duck-typed item first,
then a real `FieldInfo` carrying discriminator `"kind"`. -/
theorem c5_first_fieldinfo_instance_wins_witness :
    lookupD "discriminator"
      (dentries (describe_models
        (.annotated (.basic "int")
          ([Ann.duck (some "x") none none] ++
           .fieldInfo ⟨some "kind", none, none, none⟩ :: [])))) =
      some (DVal.str "kind") :=
  (c5_first_fieldinfo_instance_wins (.basic "int")
    [Ann.duck (some "x") none none] []
    ⟨some "kind", none, none, none⟩ rfl).1

theorem alookup_ainsert_self {α : Type} (k : String) (v : α)
    (es : List (String × α)) : alookup k (ainsert k v es) = some v := by
  induction es with
  | nil => simp [ainsert, alookup]
  | cons p rest ih =>
      obtain ⟨k2, v2⟩ := p
      by_cases h : k2 = k <;> simp [ainsert, alookup, h, ih]

theorem alookup_ainsert_ne {α : Type} (k k2 : String) (v : α)
    (es : List (String × α)) (h : k ≠ k2) :
    alookup k (ainsert k2 v es) = alookup k es := by
  induction es with
  | nil => simp [ainsert, alookup, Ne.symm h]
  | cons p rest ih =>
      obtain ⟨k3, v3⟩ := p
      by_cases h3 : k3 = k2
      · subst h3
        simp [ainsert, alookup, Ne.symm h]
      · by_cases h4 : k3 = k <;> simp [ainsert, alookup, h3, h4, h, ih]

theorem foldl_ainsert_lookup_not_mem {α : Type} (f : String → α → DVal)
    (l : List (String × α)) (init : List (String × DVal)) (name : String)
    (h : name ∉ l.map Prod.fst) :
    alookup name
        (l.foldl (fun out p => ainsert p.1 (f p.1 p.2) out) init) =
      alookup name init := by
  induction l generalizing init with
  | nil => rfl
  | cons p rest ih =>
      simp only [List.map_cons, List.mem_cons] at h
      push_neg at h
      simp only [List.foldl_cons]
      rw [ih _ h.2, alookup_ainsert_ne _ _ _ _ h.1]

theorem foldl_ainsert_lookup_mem {α : Type} (f : String → α → DVal)
    (l : List (String × α)) (init : List (String × DVal)) (name : String)
    (v : α) (hmem : (name, v) ∈ l) (hnodup : (l.map Prod.fst).Nodup) :
    alookup name
        (l.foldl (fun out p => ainsert p.1 (f p.1 p.2) out) init) =
      some (f name v) := by
  induction l generalizing init with
  | nil => cases hmem
  | cons p rest ih =>
      obtain ⟨k, a⟩ := p
      simp only [List.map_cons, List.nodup_cons] at hnodup
      simp only [List.foldl_cons]
      rcases List.mem_cons.mp hmem with heq | htail
      · injection heq with h1 h2
        subst h1
        subst h2
        rw [foldl_ainsert_lookup_not_mem _ _ _ _ hnodup.1,
            alookup_ainsert_self]
      · exact ih _ htail hnodup.2

/-- C2: for every model field whose raw (unresolved) annotation is a bare
name string that is a key of the known-alias mapping, `iter_model_fields`
emits the annotation descriptor
`{kind: type_ref, name: <that name>, optional: false, discriminator: null,
field_meta: {}}`, whatever the alias maps to and whatever the name would
resolve to (the alias body is never expanded). -/
theorem c2_alias_short_circuit (m : Model) (ta : List (String × DVal))
    (out : List (String × DVal)) (name s : String) (f : FieldV)
    (hok : iter_model_fields m ta = .ok out)
    (hnodup : (m.model_fields.map Prod.fst).Nodup)
    (hmem : (name, f) ∈ m.model_fields)
    (hraw : alookup name m.raw_anns = some (.str s))
    (halias : (alookup s ta).isSome = true) :
    alookup name out =
      some (.dict
        [("annotation",
          .dict [("kind", .str "type_ref"),
                 ("name", .str s),
                 ("optional", .bool false),
                 ("discriminator", .null),
                 ("field_meta", .dict [])]),
         ("required", .bool f.is_required),
         ("has_default",
          .bool (f.default.isNotNone || f.default_factory)),
         ("default", f.default.toDVal),
         ("alias", optStr f.aliasName)]) := by
  cases hh : get_type_hints m with
  | error e => simp [iter_model_fields, hh, bind, Except.bind] at hok
  | ok hints =>
      simp only [iter_model_fields, hh, bind, Except.bind, pure,
                 Except.pure, Except.ok.injEq] at hok
      rw [← hok]
      rw [foldl_ainsert_lookup_mem _ _ _ _ _ hmem hnodup]
      simp [iter_field_entry, hraw, halias, fieldEntryWith, typeRefAnnDict]

/-- Witness for C2 at a concrete model and alias set. -/
theorem c2_alias_short_circuit_witness :
    alookup "dept"
        [("dept",
          iter_field_entry [("dept", .literal [.s "clothing", .s "grocery"])]
            wC2Aliases wC2Model.raw_anns "dept"
            { ann := .literal [.s "clothing", .s "grocery"],
              default := .undef, default_factory := false,
              aliasName := none })] =
      some (.dict
        [("annotation",
          .dict [("kind", .str "type_ref"),
                 ("name", .str "DeptAlias"),
                 ("optional", .bool false),
                 ("discriminator", .null),
                 ("field_meta", .dict [])]),
         ("required", .bool true),
         ("has_default", .bool true),
         ("default", .undef),
         ("alias", .null)]) :=
  c2_alias_short_circuit wC2Model wC2Aliases _ "dept" "DeptAlias"
    { ann := .literal [.s "clothing", .s "grocery"],
      default := .undef, default_factory := false, aliasName := none }
    rfl (by simp [wC2Model]) (by simp [wC2Model]) rfl rfl

/-- C10: a field present in `model_fields` but absent from the class's own
`__annotations__` (e.g. inherited from a base model) never takes the alias
short-circuit — its annotation is always produced by full expansion through
`describe_models`, even when the declaration in the base class spelled a
known alias name (the MRO annotations and alias set are unconstrained
here). -/
theorem c10_inherited_fields_fully_expanded (m : Model)
    (ta : List (String × DVal)) (out : List (String × DVal))
    (hints : List (String × Ann)) (name : String) (f : FieldV)
    (hh : get_type_hints m = .ok hints)
    (hok : iter_model_fields m ta = .ok out)
    (hnodup : (m.model_fields.map Prod.fst).Nodup)
    (hmem : (name, f) ∈ m.model_fields)
    (hraw : alookup name m.raw_anns = none) :
    alookup name out =
      some (.dict
        [("annotation",
          describe_models ((alookup name hints).getD f.ann)),
         ("required", .bool f.is_required),
         ("has_default",
          .bool (f.default.isNotNone || f.default_factory)),
         ("default", f.default.toDVal),
         ("alias", optStr f.aliasName)]) := by
  simp only [iter_model_fields, hh, bind, Except.bind, pure,
             Except.pure, Except.ok.injEq] at hok
  rw [← hok]
  rw [foldl_ainsert_lookup_mem _ _ _ _ _ hmem hnodup]
  simp [iter_field_entry, hraw, fieldEntryWith]

/-- Witness for C10: even though `DeptAlias` is in the alias set, the
inherited field is expanded through `describe_models`. -/
theorem c10_inherited_fields_fully_expanded_witness :
    alookup "dept"
        [("dept",
          iter_field_entry
            [("dept", .literal [.s "clothing", .s "grocery"])]
            wC2Aliases [] "dept"
            { ann := .basic "object", default := .undef,
              default_factory := false, aliasName := none })] =
      some (.dict
        [("annotation",
          describe_models (.literal [.s "clothing", .s "grocery"])),
         ("required", .bool true),
         ("has_default", .bool true),
         ("default", .undef),
         ("alias", .null)]) :=
  c10_inherited_fields_fully_expanded wC10Model wC2Aliases _
    [("dept", .literal [.s "clothing", .s "grocery"])] "dept"
    { ann := .basic "object", default := .undef,
      default_factory := false, aliasName := none }
    rfl rfl (by simp [wC10Model]) (by simp [wC10Model]) rfl

theorem foldlM_resolve_error (gns : List (String × Ann))
    (l : List (String × RawAnn)) (acc : List (String × Ann)) (e : String)
    (h : l.foldlM (fun acc p => do
        let a ← resolveRaw gns p.2
        pure (ainsert p.1 a acc)) acc = .error e) :
    ∃ n s, (n, RawAnn.str s) ∈ l ∧ alookup s gns = none ∧
      e = "name " ++ s ++ " is not defined" := by
  induction l generalizing acc with
  | nil => simp [List.foldlM, pure, Except.pure] at h
  | cons p rest ih =>
      obtain ⟨n, r⟩ := p
      cases r with
      | str s =>
          cases hg : alookup s gns with
          | some a =>
              simp only [List.foldlM_cons, resolveRaw, hg, bind,
                         Except.bind, pure, Except.pure] at h
              obtain ⟨n2, s2, hm, hgl, he⟩ := ih _ h
              exact ⟨n2, s2, List.mem_cons_of_mem _ hm, hgl, he⟩
          | none =>
              simp only [List.foldlM_cons, resolveRaw, hg, bind,
                         Except.bind, pure, Except.pure,
                         Except.error.injEq] at h
              exact ⟨n, s, List.mem_cons_self _ _, hg, h.symm⟩
      | ann a =>
          simp only [List.foldlM_cons, resolveRaw, bind,
                     Except.bind, pure, Except.pure] at h
          obtain ⟨n2, s2, hm, hgl, he⟩ := ih _ h
          exact ⟨n2, s2, List.mem_cons_of_mem _ hm, hgl, he⟩

/-- C9 (amended): when a forward-referenced (string-form) annotation
cannot be bound, the whole `iter_model_fields` call for the model fails
with the same error — no partial mapping is returned — and the surfaced
error is the `NameError` text naming the unresolved symbol (it carries the
undefined name, not the offending field name or the class name). -/
theorem c9_resolution_failure_fails_whole_call (m : Model)
    (ta : List (String × DVal)) (e : String)
    (h : get_type_hints m = .error e) :
    iter_model_fields m ta = .error e ∧
    ∃ n s, (n, RawAnn.str s) ∈ m.mro_anns ∧ alookup s m.globalns = none ∧
      e = "name " ++ s ++ " is not defined" := by
  refine ⟨?_, foldlM_resolve_error m.globalns m.mro_anns [] e h⟩
  simp [iter_model_fields, h, bind, Except.bind]

/-- C9 counterexample: the extraction fails as a whole, but the surfaced
error text names only the undefined symbol — it contains neither the
offending field name `zzz` nor the class name `MyModel`, contrary to the
claim's reporting requirement. -/
theorem c9_counterexample_error_lacks_field_and_class :
    iter_model_fields unresolvedModel [] =
      .error "name UndefAlias is not defined" ∧
    strContains "name UndefAlias is not defined" "zzz" = false ∧
    strContains "name UndefAlias is not defined" "MyModel" = false := by
  refine ⟨rfl, ?_, ?_⟩ <;> decide

/-- Witness for C9 (amended) at the same concrete model. -/
theorem c9_resolution_failure_fails_whole_call_witness :
    iter_model_fields unresolvedModel [] =
      .error "name UndefAlias is not defined" ∧
    (∃ n s, (n, RawAnn.str s) ∈ unresolvedModel.mro_anns ∧
      alookup s unresolvedModel.globalns = none ∧
      "name UndefAlias is not defined" =
        "name " ++ s ++ " is not defined") :=
  c9_resolution_failure_fails_whole_call unresolvedModel []
    "name UndefAlias is not defined" rfl

/-- C6 evaluated at the failing input: because the code tests
`field.default is not None` instead of "a default is declared",
a field with no declared default and no factory (`product_id`, which is
also `required`) gets `has_default = true`, while a field declaring the
literal default `None` (`aisle`) gets `has_default = false` — the claimed
equivalence fails in both directions. -/
theorem c6_code_evaluation :
    ∃ out, iter_model_fields wC6Model [] = .ok out ∧
      (∃ e1, alookup "product_id" out = some (.dict e1) ∧
        lookupD "required" e1 = some (.bool true) ∧
        lookupD "has_default" e1 = some (.bool true)) ∧
      (∃ e2, alookup "aisle" out = some (.dict e2) ∧
        lookupD "has_default" e2 = some (.bool false) ∧
        lookupD "default" e2 = some (.lit .pynone)) := by
  exact ⟨_, rfl, ⟨_, rfl, rfl, rfl⟩, ⟨_, rfl, rfl, rfl⟩⟩

theorem dinsertD_eq_ainsert (k : String) (v : DVal)
    (es : List (String × DVal)) : dinsertD k v es = ainsert k v es := by
  induction es with
  | nil => rfl
  | cons p rest ih =>
      obtain ⟨k2, v2⟩ := p
      by_cases h : k2 = k <;> simp [dinsertD, ainsert, h, ih]

theorem lookupD_eq_alookup (k : String) (es : List (String × DVal)) :
    lookupD k es = alookup k es := by
  induction es with
  | nil => rfl
  | cons p rest ih =>
      obtain ⟨k2, v2⟩ := p
      by_cases h : k2 = k <;> simp [lookupD, alookup, h, ih]

theorem ainsert_keys {α : Type} (k : String) (v : α)
    (es : List (String × α)) :
    (ainsert k v es).map Prod.fst =
      if k ∈ es.map Prod.fst then es.map Prod.fst
      else es.map Prod.fst ++ [k] := by
  induction es with
  | nil => simp [ainsert]
  | cons p rest ih =>
      obtain ⟨k2, v2⟩ := p
      by_cases h : k2 = k
      · subst h
        simp [ainsert]
      · simp only [ainsert, if_neg h, List.map_cons, ih]
        by_cases hm : k ∈ rest.map Prod.fst <;>
          simp [hm, Ne.symm h]

theorem ainsert_keys_nodup {α : Type} (k : String) (v : α)
    (es : List (String × α)) (h : (es.map Prod.fst).Nodup) :
    ((ainsert k v es).map Prod.fst).Nodup := by
  rw [ainsert_keys]
  by_cases hm : k ∈ es.map Prod.fst
  · simpa [hm] using h
  · simp only [hm, if_false]
    rw [List.nodup_append]
    refine ⟨h, List.nodup_singleton _, ?_⟩
    intro x hx hx2
    simp only [List.mem_singleton] at hx2
    subst hx2
    exact hm hx

theorem mem_ainsert {α : Type} (n2 : String) (v2 : α) (k : String) (v : α)
    (es : List (String × α)) (h : (n2, v2) ∈ ainsert k v es) :
    (n2 = k ∧ v2 = v) ∨ (n2, v2) ∈ es := by
  induction es with
  | nil =>
      simp [ainsert] at h
      exact Or.inl h
  | cons p rest ih =>
      obtain ⟨k3, v3⟩ := p
      by_cases h3 : k3 = k
      · subst h3
        simp only [ainsert, if_pos rfl] at h
        rcases List.mem_cons.mp h with heq | htail
        · injection heq with h1 h2
          exact Or.inl ⟨h1, h2⟩
        · exact Or.inr (List.mem_cons_of_mem _ htail)
      · simp only [ainsert, if_neg h3] at h
        rcases List.mem_cons.mp h with heq | htail
        · exact Or.inr (List.mem_cons.mpr (Or.inl heq))
        · rcases ih htail with hl | hr
          · exact Or.inl hl
          · exact Or.inr (List.mem_cons_of_mem _ hr)

theorem alookup_of_mem_nodup {α : Type} (n : String) (v : α)
    (l : List (String × α)) (hmem : (n, v) ∈ l)
    (hnodup : (l.map Prod.fst).Nodup) : alookup n l = some v := by
  induction l with
  | nil => cases hmem
  | cons p rest ih =>
      obtain ⟨k, a⟩ := p
      simp only [List.map_cons, List.nodup_cons] at hnodup
      rcases List.mem_cons.mp hmem with heq | htail
      · injection heq with h1 h2
        subst h1
        subst h2
        simp [alookup]
      · have hk : k ≠ n := by
          intro hkn
          subst hkn
          exact hnodup.1 (List.mem_map.mpr ⟨(k, v), htail, rfl⟩)
        simp [alookup, hk, ih htail hnodup.2]

theorem mem_of_alookup {α : Type} (n : String) (v : α)
    (l : List (String × α)) (h : alookup n l = some v) : (n, v) ∈ l := by
  induction l with
  | nil => simp [alookup] at h
  | cons p rest ih =>
      obtain ⟨k, a⟩ := p
      by_cases hk : k = n
      · subst hk
        have hav : a = v := by simpa [alookup] using h
        subst hav
        exact List.mem_cons_self _ _
      · simp only [alookup, if_neg hk] at h
        exact List.mem_cons_of_mem _ (ih h)

theorem foldl_dinsert_append (l acc : List (String × DVal))
    (hfresh : ∀ k ∈ l.map Prod.fst, k ∉ acc.map Prod.fst)
    (hnodup : (l.map Prod.fst).Nodup) :
    l.foldl (fun out p => dinsertD p.1 p.2 out) acc = acc ++ l := by
  induction l generalizing acc with
  | nil => simp
  | cons p rest ih =>
      obtain ⟨k, v⟩ := p
      simp only [List.map_cons, List.nodup_cons] at hnodup
      simp only [List.foldl_cons]
      rw [dinsertD_of_not_mem _ _ _ (hfresh k (by simp))]
      rw [ih (acc ++ [(k, v)]) ?_ hnodup.2]
      · simp
      · intro k2 hk2
        simp only [List.map_append, List.mem_append, List.map_cons,
                   List.map_nil, List.mem_singleton]
        push_neg
        refine ⟨hfresh k2 (by simp [hk2]), ?_⟩
        intro hkk
        subst hkk
        exact hnodup.1 hk2

theorem aliasKeep_key (p : String × PyBinding) (q : String × DVal)
    (h : aliasKeep p = some q) : q.1 = p.1 := by
  obtain ⟨n, b⟩ := p
  cases b with
  | obj a =>
      simp only [aliasKeep] at h
      split at h
      · injection h with h2
        rw [← h2]
      · cases h
  | model m => cases h

theorem aliasKeep_eq_some_iff (n : String) (b : PyBinding)
    (q : String × DVal) :
    aliasKeep (n, b) = some q ↔
      ∃ a, b = .obj a ∧ startsWithUnderscore n = false ∧ is_type_ann a = true ∧
        q = (n, describe_ann a) := by
  cases b with
  | obj a =>
      simp only [aliasKeep]
      constructor
      · intro h
        split at h
        · next hcond =>
            simp only [Bool.and_eq_true, Bool.not_eq_true'] at hcond
            injection h with h2
            exact ⟨a, rfl, hcond.1, hcond.2, h2.symm⟩
        · cases h
      · rintro ⟨a2, ha2, hs, ht, hq⟩
        injection ha2 with ha2
        subst ha2
        subst hq
        simp [hs, ht]
  | model m =>
      simp only [aliasKeep]
      constructor
      · intro h
        cases h
      · rintro ⟨a, ha, -⟩
        cases ha

theorem find_defined_foldl_eq (l : List (String × PyBinding))
    (acc : List (String × DVal))
    (hfresh : ∀ k ∈ l.map Prod.fst, k ∉ acc.map Prod.fst)
    (hnodup : (l.map Prod.fst).Nodup) :
    l.foldl (fun out p =>
      if startsWithUnderscore p.1 then out
      else match p.2 with
        | .obj a => if is_type_ann a then dinsertD p.1 (describe_ann a) out
                    else out
        | .model _ => out) acc = acc ++ l.filterMap aliasKeep := by
  induction l generalizing acc with
  | nil => simp
  | cons p rest ih =>
      obtain ⟨n, b⟩ := p
      simp only [List.map_cons, List.nodup_cons] at hnodup
      have hfreshRest : ∀ k ∈ rest.map Prod.fst, k ∉ acc.map Prod.fst :=
        fun k hk => hfresh k (by simp [hk])
      simp only [List.foldl_cons]
      cases hb : aliasKeep (n, b) with
      | some q =>
          obtain ⟨a, hba, hs, ht, hq⟩ := (aliasKeep_eq_some_iff n b q).mp hb
          subst hba
          subst hq
          simp only [hs, Bool.false_eq_true, if_false, ht, if_true]
          rw [dinsertD_of_not_mem _ _ _ (hfresh n (by simp))]
          rw [ih (acc ++ [(n, describe_ann a)]) ?_ hnodup.2]
          · simp [List.filterMap_cons, hb]
          · intro k2 hk2
            simp only [List.map_append, List.mem_append, List.map_cons,
                       List.map_nil, List.mem_singleton]
            push_neg
            refine ⟨hfreshRest k2 hk2, ?_⟩
            intro hkk
            subst hkk
            exact hnodup.1 hk2
      | none =>
          cases b with
          | obj a =>
              by_cases hu : startsWithUnderscore n
              · simp only [hu, if_true]
                rw [ih acc hfreshRest hnodup.2]
                simp [List.filterMap_cons, hb]
              · by_cases ht : is_type_ann a
                · exfalso
                  have := (aliasKeep_eq_some_iff n (.obj a)
                    (n, describe_ann a)).mpr
                    ⟨a, rfl, by simpa using hu, ht, rfl⟩
                  rw [hb] at this
                  cases this
                · have hu2 : startsWithUnderscore n = false := by simpa using hu
                  have ht2 : is_type_ann a = false := by simpa using ht
                  simp only [hu2, Bool.false_eq_true, if_false, ht2]
                  rw [ih acc hfreshRest hnodup.2]
                  simp [List.filterMap_cons, hb]
          | model m =>
              by_cases hu : startsWithUnderscore n
              · simp only [hu, if_true]
                rw [ih acc hfreshRest hnodup.2]
                simp [List.filterMap_cons, hb]
              · have hu2 : startsWithUnderscore n = false := by simpa using hu
                simp only [hu2, Bool.false_eq_true, if_false]
                rw [ih acc hfreshRest hnodup.2]
                simp [List.filterMap_cons, hb]

theorem find_defined_eq_filterMap (mod : PyModule)
    (hnodup : (mod.dict.map Prod.fst).Nodup) :
    find_defined_type_aliases mod = mod.dict.filterMap aliasKeep := by
  have := find_defined_foldl_eq mod.dict [] (by simp) hnodup
  simpa [find_defined_type_aliases] using this

theorem aliasKeep_keys_sublist (l : List (String × PyBinding)) :
    ((l.filterMap aliasKeep).map Prod.fst).Sublist (l.map Prod.fst) := by
  induction l with
  | nil => simp
  | cons p rest ih =>
      cases hb : aliasKeep p with
      | none =>
          simp only [List.filterMap_cons, hb, List.map_cons]
          exact ih.cons _
      | some q =>
          simp only [List.filterMap_cons, hb, List.map_cons]
          rw [aliasKeep_key p q hb]
          exact ih.cons₂ _

theorem find_defined_keys_nodup (mod : PyModule)
    (hnodup : (mod.dict.map Prod.fst).Nodup) :
    ((find_defined_type_aliases mod).map Prod.fst).Nodup := by
  rw [find_defined_eq_filterMap mod hnodup]
  exact hnodup.sublist (aliasKeep_keys_sublist mod.dict)

theorem foldl_optinsert_mem {α : Type} (g : String → Option α)
    (names : List String) (acc : List (String × α))
    (hacc : ∀ p ∈ acc, g p.1 = some p.2) (n : String) (v : α)
    (hmem : (n, v) ∈ names.foldl (optInsertStep g) acc) :
    g n = some v := by
  induction names generalizing acc with
  | nil => exact hacc _ hmem
  | cons n2 rest ih =>
      simp only [List.foldl_cons] at hmem
      cases hg : g n2 with
      | none =>
          rw [optInsertStep, hg] at hmem
          exact ih acc hacc hmem
      | some m2 =>
          rw [optInsertStep, hg] at hmem
          refine ih _ ?_ hmem
          intro p hp
          obtain ⟨pn, pv⟩ := p
          rcases mem_ainsert _ _ _ _ _ hp with ⟨h1, h2⟩ | hin
          · subst h1
            subst h2
            exact hg
          · exact hacc _ hin

theorem foldl_optinsert_keys_nodup {α : Type} (g : String → Option α)
    (names : List String) (acc : List (String × α))
    (hacc : (acc.map Prod.fst).Nodup) :
    ((names.foldl (optInsertStep g) acc).map Prod.fst).Nodup := by
  induction names generalizing acc with
  | nil => exact hacc
  | cons n2 rest ih =>
      simp only [List.foldl_cons]
      cases hg : g n2 with
      | none =>
          rw [optInsertStep, hg]
          exact ih acc hacc
      | some m2 =>
          rw [optInsertStep, hg]
          exact ih _ (ainsert_keys_nodup _ _ _ hacc)

theorem collect_mem_attr (mod : PyModule) (n : String) (m : Model)
    (hmem : (n, m) ∈ collect_base_models mod) :
    asBaseModelSubclass (moduleAttr mod n) = some m :=
  foldl_optinsert_mem
    (fun n2 => asBaseModelSubclass (moduleAttr mod n2)) (dirNames mod) []
    (by intro p hp; cases hp) n m hmem

theorem collect_keys_nodup (mod : PyModule) :
    ((collect_base_models mod).map Prod.fst).Nodup :=
  foldl_optinsert_keys_nodup
    (fun n2 => asBaseModelSubclass (moduleAttr mod n2)) (dirNames mod) []
    (by simp)

theorem retrieve_fold_not_mem (ta : List (String × DVal))
    (models : List (String × Model)) (init reg : List (String × DVal))
    (name : String)
    (h : models.foldlM (fun out p => do
        let fields ← iter_model_fields p.2 ta
        pure (dinsertD p.1 (.dict fields) out)) init = .ok reg)
    (hn : name ∉ models.map Prod.fst) :
    lookupD name reg = lookupD name init := by
  induction models generalizing init with
  | nil =>
      simp only [List.foldlM_nil, pure, Except.pure, Except.ok.injEq] at h
      rw [← h]
  | cons p rest ih =>
      obtain ⟨n2, m2⟩ := p
      simp only [List.map_cons, List.mem_cons] at hn
      push_neg at hn
      cases hit : iter_model_fields m2 ta with
      | error e =>
          simp [List.foldlM_cons, hit, bind, Except.bind] at h
      | ok fields =>
          simp only [List.foldlM_cons, hit, bind, Except.bind, pure,
                     Except.pure] at h
          rw [ih _ h hn.2, lookupD_dinsertD_ne _ _ _ _ hn.1]

theorem retrieve_fold_mem (ta : List (String × DVal))
    (models : List (String × Model)) (init reg : List (String × DVal))
    (name : String) (m : Model)
    (h : models.foldlM (fun out p => do
        let fields ← iter_model_fields p.2 ta
        pure (dinsertD p.1 (.dict fields) out)) init = .ok reg)
    (hmem : (name, m) ∈ models)
    (hnodup : (models.map Prod.fst).Nodup) :
    ∃ fields, iter_model_fields m ta = .ok fields ∧
      lookupD name reg = some (.dict fields) := by
  induction models generalizing init with
  | nil => cases hmem
  | cons p rest ih =>
      obtain ⟨n2, m2⟩ := p
      simp only [List.map_cons, List.nodup_cons] at hnodup
      cases hit : iter_model_fields m2 ta with
      | error e =>
          simp [List.foldlM_cons, hit, bind, Except.bind] at h
      | ok fields =>
          simp only [List.foldlM_cons, hit, bind, Except.bind, pure,
                     Except.pure] at h
          rcases List.mem_cons.mp hmem with heq | htail
          · injection heq with h1 h2
            subst h1
            subst h2
            refine ⟨fields, hit, ?_⟩
            rw [retrieve_fold_not_mem _ _ _ _ _ h hnodup.1,
                lookupD_dinsertD_self]
          · exact ih _ h htail hnodup.2

theorem retrieve_fold_append (ta : List (String × DVal))
    (models : List (String × Model)) (init reg : List (String × DVal))
    (h : models.foldlM (fun out p => do
        let fields ← iter_model_fields p.2 ta
        pure (dinsertD p.1 (.dict fields) out)) init = .ok reg)
    (hfresh : ∀ k ∈ models.map Prod.fst, k ∉ init.map Prod.fst)
    (hnodup : (models.map Prod.fst).Nodup) :
    ∃ t, reg = init ++ t ∧ t.map Prod.fst = models.map Prod.fst := by
  induction models generalizing init with
  | nil =>
      simp only [List.foldlM_nil, pure, Except.pure, Except.ok.injEq] at h
      exact ⟨[], h.symm.trans (by simp), by simp⟩
  | cons p rest ih =>
      obtain ⟨n2, m2⟩ := p
      simp only [List.map_cons, List.nodup_cons] at hnodup
      cases hit : iter_model_fields m2 ta with
      | error e =>
          simp [List.foldlM_cons, hit, bind, Except.bind] at h
      | ok fields =>
          simp only [List.foldlM_cons, hit, bind, Except.bind, pure,
                     Except.pure] at h
          rw [dinsertD_of_not_mem _ _ _ (hfresh n2 (by simp))] at h
          have hfresh2 : ∀ k ∈ rest.map Prod.fst,
              k ∉ (init ++ [(n2, DVal.dict fields)]).map Prod.fst := by
            intro k hk
            simp only [List.map_append, List.mem_append, List.map_cons,
                       List.map_nil, List.mem_singleton]
            push_neg
            refine ⟨hfresh k (by simp [hk]), ?_⟩
            intro hkk
            subst hkk
            exact hnodup.1 hk
          obtain ⟨t, ht1, ht2⟩ := ih _ h hfresh2 hnodup.2
          exact ⟨(n2, .dict fields) :: t, by simp [ht1], by simp [ht2]⟩

theorem model_alias_keys_disjoint (mod : PyModule)
    (hnodup : (mod.dict.map Prod.fst).Nodup) :
    ∀ k ∈ (collect_base_models mod).map Prod.fst,
      k ∉ (find_defined_type_aliases mod).map Prod.fst := by
  intro k hk hk2
  obtain ⟨pm, hmemc, hfst⟩ := List.mem_map.mp hk
  obtain ⟨k1, m⟩ := pm
  simp only at hfst
  subst hfst
  have h1 := collect_mem_attr mod k1 m hmemc
  rw [find_defined_eq_filterMap mod hnodup] at hk2
  obtain ⟨pq, hmem2, hfst2⟩ := List.mem_map.mp hk2
  obtain ⟨pp, hp, hkeep⟩ := List.mem_filterMap.mp hmem2
  obtain ⟨pn, pb⟩ := pp
  have hkey : pq.1 = pn := aliasKeep_key _ _ hkeep
  obtain ⟨a, hpb, -, -, -⟩ := (aliasKeep_eq_some_iff pn pb pq).mp hkeep
  subst hpb
  have hpn : pn = k1 := by rw [← hkey, hfst2]
  subst hpn
  have h2 : alookup pn mod.dict = some (.obj a) :=
    alookup_of_mem_nodup _ _ _ hp hnodup
  simp only [moduleAttr, h2, asBaseModelSubclass] at h1
  cases h1

/-- C7: the registry built by `retrieve_types_and_basemodels` consists of
all named-alias entries first and all data-model entries after, and a
lookup of any collected model's name yields that model's field mapping —
so at a name held by both phases, the later (model) write is the one the
registry holds; a name not claimed by any model keeps its alias entry. -/
theorem c7_registry_aliases_then_models (mod : PyModule)
    (reg : List (String × DVal)) (name : String) (m : Model)
    (hnodup : (mod.dict.map Prod.fst).Nodup)
    (hok : retrieve_types_and_basemodels mod = .ok reg)
    (hmem : (name, m) ∈ collect_base_models mod) :
    (∃ modelPart, reg = find_defined_type_aliases mod ++ modelPart ∧
       modelPart.map Prod.fst = (collect_base_models mod).map Prod.fst) ∧
    (∃ fields,
       iter_model_fields m (find_defined_type_aliases mod) = .ok fields ∧
       lookupD name reg = some (.dict fields)) ∧
    (∀ n2, n2 ∉ (collect_base_models mod).map Prod.fst →
       lookupD n2 reg = lookupD n2 (find_defined_type_aliases mod)) := by
  have h0 : (find_defined_type_aliases mod).foldl
      (fun out p => dinsertD p.1 p.2 out) [] =
      find_defined_type_aliases mod := by
    have := foldl_dinsert_append (find_defined_type_aliases mod) []
      (by simp) (find_defined_keys_nodup mod hnodup)
    simpa using this
  have hok1 : (collect_base_models mod).foldlM (fun out p => do
      let fields ← iter_model_fields p.2 (find_defined_type_aliases mod)
      pure (dinsertD p.1 (.dict fields) out))
      ((find_defined_type_aliases mod).foldl
        (fun out p => dinsertD p.1 p.2 out) []) = .ok reg := hok
  rw [h0] at hok1
  have hok2 := hok1
  refine ⟨?_, ?_, ?_⟩
  · exact retrieve_fold_append _ _ _ _ hok2
      (model_alias_keys_disjoint mod hnodup) (collect_keys_nodup mod)
  · exact retrieve_fold_mem _ _ _ _ _ _ hok2 hmem (collect_keys_nodup mod)
  · intro n2 hn2
    exact retrieve_fold_not_mem _ _ _ _ _ hok2 hn2

/-- Witness for C7: on a concrete module with one alias and one model,
the collected model's name looks up to its field mapping. -/
theorem c7_registry_aliases_then_models_witness :
    ∃ reg, retrieve_types_and_basemodels wC7Module = .ok reg ∧
      (∃ fields,
        iter_model_fields wC2Model
          (find_defined_type_aliases wC7Module) = .ok fields ∧
        lookupD "Shop" reg = some (.dict fields)) :=
  ⟨_, rfl,
    (c7_registry_aliases_then_models wC7Module _ "Shop" wC2Model
      (by simp [wC7Module]) rfl (List.mem_cons_self _ _)).2.1⟩

/-- C8 (amended): alias discovery keeps exactly the top-level bindings
whose name does not start with the underscore convention prefix and whose
bound value passes the `is_type_annotation` origin check, and the
descriptor stored for each kept alias is the one produced by the Describer
(`describe_annotation`) — not the Enricher — so it carries no
`discriminator`/`field_meta` keys. -/
theorem c8_alias_discovery_uses_describer (mod : PyModule)
    (hnodup : (mod.dict.map Prod.fst).Nodup) (n : String) (d : DVal) :
    lookupD n (find_defined_type_aliases mod) = some d ↔
      ∃ a, (n, PyBinding.obj a) ∈ mod.dict ∧ startsWithUnderscore n = false ∧
        is_type_ann a = true ∧ d = describe_ann a := by
  rw [lookupD_eq_alookup, find_defined_eq_filterMap mod hnodup]
  constructor
  · intro h
    have hm := mem_of_alookup _ _ _ h
    obtain ⟨pp, hp, hkeep⟩ := List.mem_filterMap.mp hm
    obtain ⟨pn, pb⟩ := pp
    obtain ⟨a, hpb, hs, ht, hq⟩ :=
      (aliasKeep_eq_some_iff pn pb (n, d)).mp hkeep
    injection hq with hq1 hq2
    subst hq1
    subst hq2
    subst hpb
    exact ⟨a, hp, hs, ht, rfl⟩
  · rintro ⟨a, hmem, hs, ht, hd⟩
    subst hd
    apply alookup_of_mem_nodup
    · exact List.mem_filterMap.mpr
        ⟨(n, .obj a), hmem,
         (aliasKeep_eq_some_iff n (.obj a) (n, describe_ann a)).mpr
           ⟨a, rfl, hs, ht, rfl⟩⟩
    · exact hnodup.sublist (aliasKeep_keys_sublist mod.dict)

/-- C8 counterexample: the descriptor stored for an alias is
`describe_annotation`'s output, which has no `discriminator` key, and it
differs from the output of `describe_models` (the Enricher) on the same
annotation — so aliases are *not* described via the Enricher as claimed. -/
theorem c8_counterexample_describer_not_enricher :
    find_defined_type_aliases wC8Module =
      [("A", describe_ann (.literal [.s "x"]))] ∧
    lookupD "discriminator"
      (dentries (describe_ann (.literal [.s "x"]))) = none ∧
    lookupD "discriminator"
      (dentries (describe_models (.literal [.s "x"]))) = some .null ∧
    find_defined_type_aliases wC8Module ≠
      [("A", describe_models (.literal [.s "x"]))] := by
  have h1 : find_defined_type_aliases wC8Module =
      [("A", describe_ann (.literal [.s "x"]))] := rfl
  refine ⟨h1, ?_, ?_, ?_⟩
  · simp [dentries, lookupD]
  · rw [describe_models_lookup_disc]
    rfl
  · rw [h1, describe_models_eq_append]
    simp [dentries, dmDisc, dmFieldMeta, dmFieldInfo]

/-- Witness for C8 (amended) at the concrete module. -/
theorem c8_alias_discovery_uses_describer_witness :
    lookupD "A" (find_defined_type_aliases wC8Module) =
      some (describe_ann (.literal [.s "x"])) :=
  (c8_alias_discovery_uses_describer wC8Module (by simp [wC8Module]) "A"
    (describe_ann (.literal [.s "x"]))).mpr
    ⟨.literal [.s "x"], List.mem_cons_self _ _, rfl, rfl, rfl⟩
